import Mathlib

/-!
Verification of the Noq rewriting tool (`src/main.rs`) against its
natural-language specification.

The Rust enum `Expr { Sym(String), Fun(String, Vec<Expr>) }` is embedded as a
mutual inductive pair `Expr` / `ExprList` so that all recursive functions over
terms are structural (and hence kernel-evaluable).  `Vec<Expr>` becomes
`ExprList`, an explicit cons-list of terms.

`HashMap<String, _>` values (`Bindings`, the rule table) are embedded as
association lists.  Both maps are only ever extended at keys that a preceding
`get` found absent, so consing a fresh entry onto the front is an exact model
of `HashMap::insert` as used by the program.

The lexer (`mod lexer`) is not part of the repository's single source file;
the spec declares it an external collaborator and fixes its interface in §6.
The token data types below are therefore modelled from the spec.  A `Peekable`
token stream becomes a `List Token`; `lexer.next().expect(..)` on an exhausted
stream is a Rust panic, modelled by the distinguished `panic` result.

Likewise `todo!(..)` in `substitute_bindings` is a Rust panic: the function is
embedded with result type `Option Expr`, where `none` marks exactly the
executions that abort the process at that `todo!`.
-/

mutual

/-- `enum Expr { Sym(String), Fun(String, Vec<Expr>) }` (main.rs:11-15). -/
inductive Expr where
  | Sym (name : String)
  | Fun (name : String) (args : ExprList)
deriving Repr

/-- argument vectors of a `Fun` node, as an explicit list of terms. -/
inductive ExprList where
  | nil
  | cons (head : Expr) (tail : ExprList)
deriving Repr

end

mutual

/-- structural equality of terms is decidable, mirroring
`#[derive(PartialEq)]` on `Expr`. -/
def Expr.decEq : (a b : Expr) → Decidable (a = b)
  | .Sym n1, .Sym n2 =>
    if h : n1 = n2 then isTrue (by rw [h]) else isFalse (by simp [h])
  | .Sym _, .Fun _ _ => isFalse (by simp)
  | .Fun _ _, .Sym _ => isFalse (by simp)
  | .Fun n1 a1, .Fun n2 a2 =>
    if h : n1 = n2 then
      match ExprList.decEq a1 a2 with
      | isTrue h2 => isTrue (by rw [h, h2])
      | isFalse h2 => isFalse (by simp [h2])
    else isFalse (by simp [h])

/-- structural equality of argument lists is decidable. -/
def ExprList.decEq : (a b : ExprList) → Decidable (a = b)
  | .nil, .nil => isTrue rfl
  | .nil, .cons _ _ => isFalse (by simp)
  | .cons _ _, .nil => isFalse (by simp)
  | .cons h1 t1, .cons h2 t2 =>
    match Expr.decEq h1 h2, ExprList.decEq t1 t2 with
    | isTrue e1, isTrue e2 => isTrue (by rw [e1, e2])
    | isFalse e1, _ => isFalse (by simp [e1])
    | _, isFalse e2 => isFalse (by simp [e2])

end

instance : DecidableEq Expr := Expr.decEq

instance : DecidableEq ExprList := ExprList.decEq

/-- convenience: build an `ExprList` from a Lean list of terms. -/
def ExprList.ofList : List Expr → ExprList
  | [] => .nil
  | h :: t => .cons h (ExprList.ofList t)

/-- `Vec::len` of an argument vector. -/
def ExprList.length : ExprList → Nat
  | .nil => 0
  | .cons _ t => ExprList.length t + 1

/-- Modelled from the spec: the lexer's source location (line/column) carried
by every token, used in error reports (§6). -/
structure Loc where
  line : Nat
  col : Nat
deriving DecidableEq, Repr

/-- `type Bindings = HashMap<String, Expr>` (main.rs:144), as an association
list; entries are only ever inserted at keys that `get` found absent. -/
abbrev Bindings := List (String × Expr)

/-- `HashMap::get` on the association-list model: first entry with the key. -/
def Bindings.get : Bindings → String → Option Expr
  | [], _ => none
  | (k, v) :: rest, name => if k = name then some v else Bindings.get rest name

/-- `HashMap::insert` on the association-list model; only called on keys
`get` found absent, where consing is an exact model. -/
def Bindings.insert (b : Bindings) (name : String) (value : Expr) : Bindings :=
  (name, value) :: b

mutual

/-- `substitute_bindings` (main.rs:83-107).  The `todo!("Report expected
symbol in the place of the functor name")` reached when a functor name is
bound to a `Fun` is a Rust panic, modelled as `none`. -/
def substitute_bindings (bindings : Bindings) : Expr → Option Expr
  | .Sym name =>
    match bindings.get name with
    | some value => some value
    | none => some (.Sym name)
  | .Fun name args =>
    match bindings.get name with
    | some (.Fun _ _) => none
    | some (.Sym new_name) =>
      match substitute_bindings_args bindings args with
      | some new_args => some (.Fun new_name new_args)
      | none => none
    | none =>
      match substitute_bindings_args bindings args with
      | some new_args => some (.Fun name new_args)
      | none => none

/-- the `for arg in args { new_args.push(substitute_bindings(..)) }` loop of
`substitute_bindings`, propagating the modelled panic. -/
def substitute_bindings_args (bindings : Bindings) : ExprList → Option ExprList
  | .nil => some .nil
  | .cons a rest =>
    match substitute_bindings bindings a with
    | none => none
    | some a1 =>
      match substitute_bindings_args bindings rest with
      | none => none
      | some rest1 => some (.cons a1 rest1)

end

mutual

/-- `pattern_match_impl` (main.rs:147-172).  The Rust version mutates a
`&mut Bindings` and returns `bool`; here the updated bindings are returned on
success and `none` is the `false` case. -/
def pattern_match_impl : Expr → Expr → Bindings → Option Bindings
  | .Sym name, value, bindings =>
    match bindings.get name with
    | some bound_value => if bound_value = value then some bindings else none
    | none => some (bindings.insert name value)
  | .Fun name1 args1, .Fun name2 args2, bindings =>
    if name1 = name2 ∧ args1.length = args2.length then
      pattern_match_args args1 args2 bindings
    else
      none
  | .Fun _ _, .Sym _, _ => none

/-- the `for i in 0..args1.len()` loop of `pattern_match_impl`, threading one
shared bindings accumulator left to right; the caller has already checked that
the two lists have equal length. -/
def pattern_match_args : ExprList → ExprList → Bindings → Option Bindings
  | .nil, _, bindings => some bindings
  | .cons p ps, .cons v vs, bindings =>
    match pattern_match_impl p v bindings with
    | some bindings1 => pattern_match_args ps vs bindings1
    | none => none
  | .cons _ _, .nil, _ => none

end

/-- `pattern_match` (main.rs:146-181): run the matcher on a fresh empty
bindings map. -/
def pattern_match (pattern value : Expr) : Option Bindings :=
  pattern_match_impl pattern value []

/-- `struct Rule { loc, head, body }` (main.rs:76-81). -/
structure Rule where
  loc : Loc
  head : Expr
  body : Expr
deriving DecidableEq, Repr

mutual

/-- `Rule::apply_all` (main.rs:119-135): try the rule at the root; on a match
instantiate the body (no recursion into it), otherwise keep an atom unchanged
and rebuild a compound from recursively rewritten arguments.  The modelled
`substitute_bindings` panic propagates as `none`. -/
def Rule.apply_all (self : Rule) : Expr → Option Expr
  | .Sym s =>
    match pattern_match self.head (.Sym s) with
    | some bindings => substitute_bindings bindings self.body
    | none => some (.Sym s)
  | .Fun name args =>
    match pattern_match self.head (.Fun name args) with
    | some bindings => substitute_bindings bindings self.body
    | none =>
      match Rule.apply_all_args self args with
      | some new_args => some (.Fun name new_args)
      | none => none

/-- the `for arg in args { new_args.push(self.apply_all(arg)) }` loop of
`Rule::apply_all`: each argument is rewritten independently. -/
def Rule.apply_all_args (self : Rule) : ExprList → Option ExprList
  | .nil => some .nil
  | .cons a rest =>
    match Rule.apply_all self a with
    | none => none
    | some a1 =>
      match Rule.apply_all_args self rest with
      | none => none
      | some rest1 => some (.cons a1 rest1)

end

/-- Modelled from the spec: the token kinds produced by the external lexer —
a symbol, the four punctuation marks, the four command keywords, and the
terminal end-of-input marker (§6). -/
inductive TokenKind where
  | Sym
  | OpenParen
  | CloseParen
  | Comma
  | Equals
  | Rule
  | Shape
  | Apply
  | Done
  | End
deriving DecidableEq, Repr

/-- Modelled from the spec: a lexer token carries its kind, literal text and
source location (§6). -/
structure Token where
  kind : TokenKind
  text : String
  loc : Loc
deriving DecidableEq, Repr

/-- Modelled from the spec: `TokenKindSet`, the set of expected kinds carried
by an `UnexpectedToken` error, with the `empty`/`single`/`set`/`contains`
interface used by main.rs. -/
structure TokenKindSet where
  kinds : List TokenKind
deriving DecidableEq, Repr

/-- `TokenKindSet::empty()`. -/
def TokenKindSet.empty : TokenKindSet := ⟨[]⟩

/-- `TokenKindSet::single(kind)`. -/
def TokenKindSet.single (k : TokenKind) : TokenKindSet := ⟨[k]⟩

/-- `TokenKindSet::set(kind)`: add a kind to the set. -/
def TokenKindSet.set (s : TokenKindSet) (k : TokenKind) : TokenKindSet :=
  ⟨k :: s.kinds⟩

/-- `TokenKindSet::contains(kind)`. -/
def TokenKindSet.contains (s : TokenKindSet) (k : TokenKind) : Bool :=
  s.kinds.any fun k1 => k1 = k

/-- `enum Error` (main.rs:17-24). -/
inductive Error where
  | UnexpectedToken (expected : TokenKindSet) (actual : Token)
  | RuleAlreadyExists (name : String) (newLoc : Loc) (oldLoc : Loc)
  | RuleDoesNotExist (name : String)
  | AlreadyShaping
  | NoShapingInPlace
deriving DecidableEq, Repr

/-- result of a fallible computation that may also hit a Rust panic:
`panic` models `Option::expect` failing on an exhausted token stream (or,
in `parse_res`, exhausted recursion fuel, which the lexer contract rules
out); `err e` models `Err(e)`; `ok a` models `Ok(a)`. -/
inductive Res (α : Type) where
  | panic
  | err (e : Error)
  | ok (a : α)
deriving DecidableEq, Repr

/-- `expect_token_kind` (main.rs:109-116): consume one token, succeeding when
its kind lies in `kinds`.  `lexer.next().expect(..)` on an empty stream is
the modelled panic. -/
def expect_token_kind (ts : List Token) (kinds : TokenKindSet) :
    Res (Token × List Token) :=
  match ts with
  | [] => .panic
  | token :: rest =>
    if kinds.contains token.kind then .ok (token, rest)
    else .err (.UnexpectedToken kinds token)

/-- `Peekable::next_if(|t| t.kind == k)`: consume the next token exactly when
its kind is `k`; on an exhausted stream `peek` yields nothing and no panic
occurs. -/
def next_if_kind (ts : List Token) (k : TokenKind) : Option (List Token) :=
  match ts with
  | [] => none
  | t :: rest => if t.kind = k then some rest else none

mutual

/-- `Expr::parse_peekable` (main.rs:27-53), a recursive-descent parser.  Rust
recursion needs no fuel; here `fuel` bounds the recursion depth.  Fuel is
inessential: by `parse_res_fuel_mono` any parse that does not exhaust its
fuel returns the same result at every larger fuel, and the recursion consumes
at least one token per unit of fuel spent, so the `length + 1` supplied by
`parse_expr` is never exhausted on a stream the lexer contract allows. -/
def parse_res (fuel : Nat) (ts : List Token) : Res (Expr × List Token) :=
  match fuel, ts with
  | 0, _ => .panic
  | _ + 1, [] => .panic
  | fuel + 1, name :: ts =>
    match name.kind with
    | .Sym =>
      match next_if_kind ts .OpenParen with
      | none => .ok (.Sym name.text, ts)
      | some ts1 =>
        match next_if_kind ts1 .CloseParen with
        | some ts2 => .ok (.Fun name.text .nil, ts2)
        | none =>
          match parse_res fuel ts1 with
          | .panic => .panic
          | .err e => .err e
          | .ok (arg, ts2) =>
            match parse_more_args fuel ts2 with
            | .panic => .panic
            | .err e => .err e
            | .ok (rest_args, ts3) =>
              match ts3 with
              | [] => .panic
              | close_paren :: ts4 =>
                if close_paren.kind = .CloseParen then
                  .ok (.Fun name.text (.cons arg rest_args), ts4)
                else
                  .err (.UnexpectedToken (TokenKindSet.single .CloseParen) close_paren)
    | _ => .err (.UnexpectedToken (TokenKindSet.single .Sym) name)

/-- the `while let Some(_) = lexer.next_if(|t| t.kind == Comma)` loop of
`Expr::parse_peekable`: parse further comma-separated arguments. -/
def parse_more_args (fuel : Nat) (ts : List Token) : Res (ExprList × List Token) :=
  match fuel with
  | 0 => .panic
  | fuel + 1 =>
    match next_if_kind ts .Comma with
    | none => .ok (.nil, ts)
    | some ts1 =>
      match parse_res fuel ts1 with
      | .panic => .panic
      | .err e => .err e
      | .ok (arg, ts2) =>
        match parse_more_args fuel ts2 with
        | .panic => .panic
        | .err e => .err e
        | .ok (args, ts3) => .ok (.cons arg args, ts3)

end

/-- `Expr::parse_peekable` at the call sites in `process_command`, with fuel
`ts.length + 1` (see `parse_res_fuel_mono`). -/
def parse_expr (ts : List Token) : Res (Expr × List Token) :=
  parse_res (ts.length + 1) ts

/-- `struct Context { rules, current_expr }` (main.rs:242-246); the rule table
`HashMap<String, Rule>` is an association list extended only at absent keys. -/
structure Context where
  rules : List (String × Rule)
  current_expr : Option Expr
deriving DecidableEq, Repr

/-- `HashMap::get` on the rule table. -/
def Context.getRule : List (String × Rule) → String → Option Rule
  | [], _ => none
  | (k, v) :: rest, name => if k = name then some v else Context.getRule rest name

/-- the `println!` outputs of `process_command`, one constructor per success
message: `Defined rule {rule}`, `Shaping {expr}`, `{new_expr}` after an apply,
and `Finished shaping expression {expr}`. -/
inductive Output where
  | DefinedRule (r : Rule)
  | Shaping (e : Expr)
  | NewExpr (e : Expr)
  | FinishedShaping (e : Expr)
deriving DecidableEq, Repr

/-- outcome of one command: `panic` models a Rust panic (exhausted lexer,
the `unreachable!` arm, or the `substitute_bindings` `todo!`); `err e ctx`
models `Err(e)` returned with the session in state `ctx`; `ok ctx rest out`
models `Ok(())` with the session in state `ctx`, the stream at `rest` and
messages `out` printed. -/
inductive CmdResult where
  | panic
  | err (e : Error) (ctx : Context)
  | ok (ctx : Context) (rest : List Token) (out : List Output)
deriving DecidableEq, Repr

/-- `Context::process_command` (main.rs:249-307), with the session state
threaded explicitly: every `return Err(..)` in the Rust occurs before any
mutation of `self`, so each error constructor carries the context exactly as
it stood at that return. -/
def process_command (ctx : Context) (ts : List Token) : CmdResult :=
  let expected_tokens :=
    ((((TokenKindSet.empty).set .Rule).set .Shape).set .Apply).set .Done
  match expect_token_kind ts expected_tokens with
  | .panic => .panic
  | .err e => .err e ctx
  | .ok (keyword, ts) =>
    match keyword.kind with
    | .Rule =>
      match expect_token_kind ts (TokenKindSet.single .Sym) with
      | .panic => .panic
      | .err e => .err e ctx
      | .ok (name, ts) =>
        match Context.getRule ctx.rules name.text with
        | some existing_rule =>
          .err (.RuleAlreadyExists name.text name.loc existing_rule.loc) ctx
        | none =>
          match parse_expr ts with
          | .panic => .panic
          | .err e => .err e ctx
          | .ok (head, ts) =>
            match expect_token_kind ts (TokenKindSet.single .Equals) with
            | .panic => .panic
            | .err e => .err e ctx
            | .ok (_, ts) =>
              match parse_expr ts with
              | .panic => .panic
              | .err e => .err e ctx
              | .ok (body, ts) =>
                let rule : Rule := ⟨keyword.loc, head, body⟩
                .ok { ctx with rules := (name.text, rule) :: ctx.rules } ts
                  [.DefinedRule rule]
    | .Shape =>
      match ctx.current_expr with
      | some _ => .err .AlreadyShaping ctx
      | none =>
        match parse_expr ts with
        | .panic => .panic
        | .err e => .err e ctx
        | .ok (e, ts) =>
          .ok { ctx with current_expr := some e } ts [.Shaping e]
    | .Apply =>
      match ctx.current_expr with
      | none => .err .NoShapingInPlace ctx
      | some expr =>
        match expect_token_kind ts (TokenKindSet.single .Sym) with
        | .panic => .panic
        | .err e => .err e ctx
        | .ok (name, ts) =>
          match Context.getRule ctx.rules name.text with
          | none => .err (.RuleDoesNotExist name.text) ctx
          | some rule =>
            match rule.apply_all expr with
            | none => .panic
            | some new_expr =>
              .ok { ctx with current_expr := some new_expr } ts [.NewExpr new_expr]
    | .Done =>
      match ctx.current_expr with
      | none => .err .NoShapingInPlace ctx
      | some expr =>
        .ok { ctx with current_expr := none } ts [.FinishedShaping expr]
    | _ => .panic

/-- one iteration of `main`'s read loop (main.rs:322-323): run the command,
then require exactly one end-of-input token; the end-of-input check runs
after `process_command` has already committed its state changes. -/
def process_line (ctx : Context) (ts : List Token) : CmdResult :=
  match process_command ctx ts with
  | .panic => .panic
  | .err e ctx1 => .err e ctx1
  | .ok ctx1 rest out =>
    match expect_token_kind rest (TokenKindSet.single .End) with
    | .panic => .panic
    | .err e => .err e ctx1
    | .ok (_, rest1) => .ok ctx1 rest1 out

mutual

/-- all subtrees of a term: the term itself and, recursively, the subtrees of
its arguments. -/
def Expr.subterms : Expr → List Expr
  | .Sym name => [.Sym name]
  | .Fun name args => .Fun name args :: ExprList.subterms_list args

/-- all subtrees of the terms of an argument list. -/
def ExprList.subterms_list : ExprList → List Expr
  | .nil => []
  | .cons h t => Expr.subterms h ++ ExprList.subterms_list t

end

mutual

/-- no functor name occurring in the term is bound in `b`; under this
condition `substitute_bindings` never renames a functor and never reaches the
`todo!` case. -/
def funs_unbound (b : Bindings) : Expr → Bool
  | .Sym _ => true
  | .Fun name args => (Bindings.get b name).isNone && funs_unbound_args b args

/-- `funs_unbound` over an argument list. -/
def funs_unbound_args (b : Bindings) : ExprList → Bool
  | .nil => true
  | .cons h t => funs_unbound b h && funs_unbound_args b t

end

/-- the rule of the `rule_apply_all` test (main.rs:220-239):
`swap(pair(a, b)) = pair(b, a)`. -/
def swapRule : Rule :=
  ⟨⟨0, 0⟩, .Fun "swap" (.ofList [.Fun "pair" (.ofList [.Sym "a", .Sym "b"])]),
    .Fun "pair" (.ofList [.Sym "b", .Sym "a"])⟩

/-- the input of the `rule_apply_all` test:
`foo(swap(pair(f(a), g(b))), swap(pair(q(c), z(d))))`. -/
def swapInput : Expr :=
  .Fun "foo" (.ofList
    [.Fun "swap" (.ofList [.Fun "pair" (.ofList
      [.Fun "f" (.ofList [.Sym "a"]), .Fun "g" (.ofList [.Sym "b"])])]),
     .Fun "swap" (.ofList [.Fun "pair" (.ofList
      [.Fun "q" (.ofList [.Sym "c"]), .Fun "z" (.ofList [.Sym "d"])])])])

/-- the expected output of the `rule_apply_all` test:
`foo(pair(g(b), f(a)), pair(z(d), q(c)))`. -/
def swapExpected : Expr :=
  .Fun "foo" (.ofList
    [.Fun "pair" (.ofList
      [.Fun "g" (.ofList [.Sym "b"]), .Fun "f" (.ofList [.Sym "a"])]),
     .Fun "pair" (.ofList
      [.Fun "z" (.ofList [.Sym "d"]), .Fun "q" (.ofList [.Sym "c"])])])

mutual

/-- a successful match only extends the bindings: every key bound on entry is
still bound, to the same term, on exit. -/
theorem pattern_match_impl_get_mono : ∀ (p v : Expr) (b b1 : Bindings),
    pattern_match_impl p v b = some b1 →
    ∀ k w, Bindings.get b k = some w → Bindings.get b1 k = some w
  | .Sym name, value, b, b1 => fun h k w hk => by
      simp only [pattern_match_impl] at h
      cases hb : Bindings.get b name with
      | some bound =>
          simp only [hb] at h
          by_cases hbv : bound = value
          · rw [if_pos hbv] at h
            injection h with h
            subst h; exact hk
          · simp [hbv] at h
      | none =>
          simp only [hb, Option.some.injEq] at h
          subst h
          simp only [Bindings.insert, Bindings.get]
          by_cases hnk : name = k
          · subst hnk; rw [hb] at hk; cases hk
          · simp [hnk, hk]
  | .Fun name1 args1, .Fun name2 args2, b, b1 => fun h k w hk => by
      simp only [pattern_match_impl] at h
      split at h
      · exact pattern_match_args_get_mono args1 args2 b b1 h k w hk
      · cases h
  | .Fun _ _, .Sym _, b, b1 => fun h => by simp [pattern_match_impl] at h

/-- `pattern_match_args` only extends the bindings. -/
theorem pattern_match_args_get_mono : ∀ (ps vs : ExprList) (b b1 : Bindings),
    pattern_match_args ps vs b = some b1 →
    ∀ k w, Bindings.get b k = some w → Bindings.get b1 k = some w
  | .nil, _, b, b1 => fun h k w hk => by
      simp only [pattern_match_args, Option.some.injEq] at h
      subst h; exact hk
  | .cons p ps, .cons v vs, b, b1 => fun h k w hk => by
      simp only [pattern_match_args] at h
      cases hpm : pattern_match_impl p v b with
      | none => simp [hpm] at h
      | some b2 =>
          simp only [hpm] at h
          exact pattern_match_args_get_mono ps vs b2 b1 h k w
            (pattern_match_impl_get_mono p v b b2 hpm k w hk)
  | .cons _ _, .nil, b, b1 => fun h => by simp [pattern_match_args] at h

end

mutual

/-- match soundness, generalized: if matching `p` against `v` starting from
`b` succeeds with `b1`, then instantiating `p` under any extension `b2` of
`b1` in which no functor name of `p` is bound reproduces `v` exactly. -/
theorem pattern_match_impl_sound : ∀ (p v : Expr) (b b1 b2 : Bindings),
    pattern_match_impl p v b = some b1 →
    (∀ k w, Bindings.get b1 k = some w → Bindings.get b2 k = some w) →
    funs_unbound b2 p = true →
    substitute_bindings b2 p = some v
  | .Sym name, value, b, b1, b2 => fun h hext _ => by
      simp only [pattern_match_impl] at h
      have hb1 : Bindings.get b1 name = some value := by
        cases hb : Bindings.get b name with
        | some bound =>
            simp only [hb] at h
            by_cases hbv : bound = value
            · rw [if_pos hbv] at h
              injection h with h
              subst h; rw [hb, hbv]
            · simp [hbv] at h
        | none =>
            simp only [hb, Option.some.injEq] at h
            subst h
            simp [Bindings.insert, Bindings.get]
      have h2 := hext name value hb1
      simp [substitute_bindings, h2]
  | .Fun name1 args1, .Fun name2 args2, b, b1, b2 => fun h hext hf => by
      simp only [pattern_match_impl] at h
      split at h
      case isTrue hcond =>
        obtain ⟨hname, hlen⟩ := hcond
        subst hname
        simp only [funs_unbound, Bool.and_eq_true] at hf
        obtain ⟨hfn, hfargs⟩ := hf
        have hargs := pattern_match_args_sound args1 args2 b b1 b2 hlen h hext hfargs
        simp only [substitute_bindings]
        rw [Option.isNone_iff_eq_none.mp hfn, hargs]
      case isFalse => cases h
  | .Fun _ _, .Sym _, b, b1, b2 => fun h => by simp [pattern_match_impl] at h

/-- match soundness for argument lists of equal length. -/
theorem pattern_match_args_sound : ∀ (ps vs : ExprList) (b b1 b2 : Bindings),
    ExprList.length ps = ExprList.length vs →
    pattern_match_args ps vs b = some b1 →
    (∀ k w, Bindings.get b1 k = some w → Bindings.get b2 k = some w) →
    funs_unbound_args b2 ps = true →
    substitute_bindings_args b2 ps = some vs
  | .nil, .nil, b, b1, b2 => fun _ _ _ _ => rfl
  | .nil, .cons _ _, b, b1, b2 => fun hlen => by simp [ExprList.length] at hlen
  | .cons _ _, .nil, b, b1, b2 => fun hlen => by simp [ExprList.length] at hlen
  | .cons p ps, .cons v vs, b, b1, b2 => fun hlen h hext hf => by
      simp only [pattern_match_args] at h
      cases hpm : pattern_match_impl p v b with
      | none => simp [hpm] at h
      | some bmid =>
          simp only [hpm] at h
          simp only [ExprList.length, Nat.add_right_cancel_iff] at hlen
          simp only [funs_unbound_args, Bool.and_eq_true] at hf
          obtain ⟨hfp, hfps⟩ := hf
          have hext2 : ∀ k w, Bindings.get bmid k = some w → Bindings.get b2 k = some w :=
            fun k w hk => hext k w (pattern_match_args_get_mono ps vs bmid b1 h k w hk)
          have h1 := pattern_match_impl_sound p v b bmid b2 hpm hext2 hfp
          have h2 := pattern_match_args_sound ps vs bmid b1 b2 hlen h hext hfps
          simp only [substitute_bindings_args]
          rw [h1, h2]

end

mutual

/-- if no subtree of `t` matches the rule head, `apply_all` rebuilds `t`
unchanged (and never reaches `substitute_bindings`). -/
theorem apply_all_of_no_subterm_match : ∀ (r : Rule) (t : Expr),
    (∀ s ∈ Expr.subterms t, pattern_match r.head s = none) →
    r.apply_all t = some t
  | r, .Sym name => fun h => by
      have h0 : pattern_match r.head (.Sym name) = none :=
        h _ (by simp [Expr.subterms])
      simp [Rule.apply_all, h0]
  | r, .Fun name args => fun h => by
      have h0 : pattern_match r.head (.Fun name args) = none :=
        h _ (by simp only [Expr.subterms]; exact List.mem_cons_self _ _)
      have hargs := apply_all_args_of_no_subterm_match r args
        (fun s hs => h s (by simp only [Expr.subterms]; exact List.mem_cons_of_mem _ hs))
      simp [Rule.apply_all, h0, hargs]

/-- argument-list form of `apply_all_of_no_subterm_match`. -/
theorem apply_all_args_of_no_subterm_match : ∀ (r : Rule) (ts : ExprList),
    (∀ s ∈ ExprList.subterms_list ts, pattern_match r.head s = none) →
    r.apply_all_args ts = some ts
  | _, .nil => fun _ => rfl
  | r, .cons a rest => fun h => by
      have ha := apply_all_of_no_subterm_match r a
        (fun s hs => h s (by
          simp only [ExprList.subterms_list]
          exact List.mem_append_left _ hs))
      have hrest := apply_all_args_of_no_subterm_match r rest
        (fun s hs => h s (by
          simp only [ExprList.subterms_list]
          exact List.mem_append_right _ hs))
      simp [Rule.apply_all_args, ha, hrest]

end

mutual

/-- fuel only matters through exhaustion: a parse that does not run out of
fuel returns the same result at every larger fuel. -/
theorem parse_res_fuel_mono : ∀ (fuel fuel2 : Nat) (ts : List Token),
    fuel ≤ fuel2 → parse_res fuel ts ≠ .panic →
    parse_res fuel2 ts = parse_res fuel ts
  | 0, _, ts => fun _ hnp => absurd rfl hnp
  | _ + 1, 0, ts => fun hle _ => absurd hle (by omega)
  | _ + 1, _ + 1, [] => fun _ hnp => absurd rfl hnp
  | fuel + 1, fuel2 + 1, name :: ts => fun hle hnp => by
      have hle1 : fuel ≤ fuel2 := by omega
      simp only [parse_res] at hnp ⊢
      cases hk : name.kind <;> simp only [hk] at hnp ⊢
      case Sym =>
        cases hop : next_if_kind ts .OpenParen <;> simp only [hop] at hnp ⊢
        case some ts1 =>
          cases hcp : next_if_kind ts1 .CloseParen <;> simp only [hcp] at hnp ⊢
          case none =>
            cases hp1 : parse_res fuel ts1 with
            | panic => rw [hp1] at hnp; exact absurd rfl hnp
            | err e =>
                rw [parse_res_fuel_mono fuel fuel2 ts1 hle1 (by rw [hp1]; simp), hp1]
            | ok a =>
                rw [parse_res_fuel_mono fuel fuel2 ts1 hle1 (by rw [hp1]; simp), hp1]
                rw [hp1] at hnp
                obtain ⟨arg, ts2⟩ := a
                simp only at hnp ⊢
                cases hp2 : parse_more_args fuel ts2 with
                | panic => rw [hp2] at hnp; exact absurd rfl hnp
                | err e =>
                    rw [parse_more_args_fuel_mono fuel fuel2 ts2 hle1 (by rw [hp2]; simp), hp2]
                | ok b =>
                    rw [parse_more_args_fuel_mono fuel fuel2 ts2 hle1 (by rw [hp2]; simp), hp2]

/-- fuel monotonicity for the comma-separated-arguments loop. -/
theorem parse_more_args_fuel_mono : ∀ (fuel fuel2 : Nat) (ts : List Token),
    fuel ≤ fuel2 → parse_more_args fuel ts ≠ .panic →
    parse_more_args fuel2 ts = parse_more_args fuel ts
  | 0, _, ts => fun _ hnp => absurd rfl hnp
  | _ + 1, 0, ts => fun hle _ => absurd hle (by omega)
  | fuel + 1, fuel2 + 1, ts => fun hle hnp => by
      have hle1 : fuel ≤ fuel2 := by omega
      simp only [parse_more_args] at hnp ⊢
      cases hc : next_if_kind ts .Comma <;> simp only [hc] at hnp ⊢
      case some ts1 =>
        cases hp1 : parse_res fuel ts1 with
        | panic => rw [hp1] at hnp; exact absurd rfl hnp
        | err e =>
            rw [parse_res_fuel_mono fuel fuel2 ts1 hle1 (by rw [hp1]; simp), hp1]
        | ok a =>
            rw [parse_res_fuel_mono fuel fuel2 ts1 hle1 (by rw [hp1]; simp), hp1]
            rw [hp1] at hnp
            obtain ⟨arg, ts2⟩ := a
            simp only at hnp ⊢
            cases hp2 : parse_more_args fuel ts2 with
            | panic => rw [hp2] at hnp; exact absurd rfl hnp
            | err e =>
                rw [parse_more_args_fuel_mono fuel fuel2 ts2 hle1 (by rw [hp2]; simp), hp2]
            | ok b =>
                rw [parse_more_args_fuel_mono fuel fuel2 ts2 hle1 (by rw [hp2]; simp), hp2]

end

/-- C1: for every rule and term, `apply_all` first attempts a root match; on
success with bindings `b` the result is `instantiate(b, rule.body)` with no
recursion into the produced body; on failure an atom is returned unchanged
and a compound is rebuilt with the same functor and `apply_all` applied to
every argument independently; and on the literal `rule_apply_all` scenario
(`swap(pair(a, b)) = pair(b, a)` applied to
`foo(swap(pair(f(a), g(b))), swap(pair(q(c), z(d))))`) it yields
`foo(pair(g(b), f(a)), pair(z(d), q(c)))`. -/
theorem C1_apply_all_semantics :
    (∀ (r : Rule) (t : Expr) (b : Bindings),
        pattern_match r.head t = some b →
        r.apply_all t = substitute_bindings b r.body)
    ∧ (∀ (r : Rule) (n : String),
        pattern_match r.head (.Sym n) = none →
        r.apply_all (.Sym n) = some (.Sym n))
    ∧ (∀ (r : Rule) (n : String) (args newArgs : ExprList),
        pattern_match r.head (.Fun n args) = none →
        r.apply_all_args args = some newArgs →
        r.apply_all (.Fun n args) = some (.Fun n newArgs))
    ∧ (∀ (r : Rule) (a : Expr) (rest : ExprList) (a1 : Expr) (rest1 : ExprList),
        r.apply_all a = some a1 →
        r.apply_all_args rest = some rest1 →
        r.apply_all_args (.cons a rest) = some (.cons a1 rest1))
    ∧ swapRule.apply_all swapInput = some swapExpected := by
  refine ⟨?_, ?_, ?_, ?_, by decide⟩
  · intro r t b h
    cases t with
    | Sym n => simp [Rule.apply_all, h]
    | Fun n args => simp [Rule.apply_all, h]
  · intro r n h
    simp [Rule.apply_all, h]
  · intro r n args newArgs h h1
    simp [Rule.apply_all, h, h1]
  · intro r a rest a1 rest1 h h1
    simp [Rule.apply_all_args, h, h1]

/-- witness for C1: the root-match clause at `swap(pair(x, y))`, the atom
clause at `w`, the rebuild clauses at `foo()` and a one-element argument
list, and the literal test scenario. -/
theorem C1_apply_all_semantics_witness :
    swapRule.apply_all (.Fun "swap" (.ofList [.Fun "pair" (.ofList [.Sym "x", .Sym "y"])]))
      = substitute_bindings [("b", .Sym "y"), ("a", .Sym "x")] swapRule.body
    ∧ swapRule.apply_all (.Sym "w") = some (.Sym "w")
    ∧ swapRule.apply_all (.Fun "foo" .nil) = some (.Fun "foo" .nil)
    ∧ swapRule.apply_all_args (.cons (.Sym "w") .nil) = some (.cons (.Sym "w") .nil)
    ∧ swapRule.apply_all swapInput = some swapExpected :=
  ⟨C1_apply_all_semantics.1 swapRule _ _ (by decide),
   C1_apply_all_semantics.2.1 swapRule "w" (by decide),
   C1_apply_all_semantics.2.2.1 swapRule "foo" .nil .nil (by decide) rfl,
   C1_apply_all_semantics.2.2.2.1 swapRule (.Sym "w") .nil (.Sym "w") .nil
     (by decide) rfl,
   C1_apply_all_semantics.2.2.2.2⟩

/-- C2 counterexample: the line `shape x y` fails (token `y` remains before
the end-of-input marker), yet the session is left shaping `x` — observable
state changed by a failing command. -/
theorem C2_atomicity_counterexample :
    process_line ⟨[], none⟩
        [⟨.Shape, "shape", ⟨0, 0⟩⟩, ⟨.Sym, "x", ⟨0, 6⟩⟩,
         ⟨.Sym, "y", ⟨0, 8⟩⟩, ⟨.End, "", ⟨0, 9⟩⟩]
      = .err (.UnexpectedToken (TokenKindSet.single .End) ⟨.Sym, "y", ⟨0, 8⟩⟩)
          ⟨[], some (.Sym "x")⟩
    ∧ (⟨[], some (.Sym "x")⟩ : Context) ≠ ⟨[], none⟩ := by decide

/-- C2 amended: every command that fails inside `process_command` leaves the
session state exactly as it was; only a command that fails at the trailing
end-of-input check (which runs after `process_command` has committed its
effects) can leave the state changed. -/
theorem C2_process_command_atomic (ctx : Context) (ts : List Token) (e : Error)
    (ctx1 : Context) (h : process_command ctx ts = .err e ctx1) : ctx1 = ctx := by
  simp only [process_command] at h
  repeat' split at h
  all_goals first
    | (injection h with h1 h2; exact h2.symm)
    | cases h

/-- witness for C2: a `shape` while already shaping fails and the state is
unchanged. -/
theorem C2_process_command_atomic_witness :
    process_command ⟨[], some (.Sym "t")⟩ [⟨.Shape, "shape", ⟨0, 0⟩⟩, ⟨.End, "", ⟨0, 5⟩⟩]
      = .err .AlreadyShaping ⟨[], some (.Sym "t")⟩
    ∧ (⟨[], some (.Sym "t")⟩ : Context) = ⟨[], some (.Sym "t")⟩ :=
  ⟨by decide,
   C2_process_command_atomic ⟨[], some (.Sym "t")⟩
     [⟨.Shape, "shape", ⟨0, 0⟩⟩, ⟨.End, "", ⟨0, 5⟩⟩] .AlreadyShaping _ (by decide)⟩

/-- C3: when `substitute_bindings` reaches a compound whose functor name is
bound to a compound, the code executes `todo!(..)`, i.e. panics and aborts
the process (modelled as `none`) — it does not surface an error value.  Both
directly and through `apply_all` with the user-reachable rule
`f(x) = x(a)` applied to `f(g(b))`. -/
theorem C3_functor_bound_to_compound_panics :
    substitute_bindings [("f", .Fun "g" .nil)] (.Fun "f" .nil) = none
    ∧ (⟨⟨0, 0⟩, .Fun "f" (.ofList [.Sym "x"]),
         .Fun "x" (.ofList [.Sym "a"])⟩ : Rule).apply_all
        (.Fun "f" (.ofList [.Fun "g" (.ofList [.Sym "b"])])) = none := by decide

/-- C4 counterexample: match soundness fails as stated.  The pattern
`p = h(f, f())` matches `v = h(g, f())` with bindings `{f ↦ g}`, but
instantiating `p` under these bindings renames the functor of `f()` to `g`,
producing `h(g, g()) ≠ v`. -/
theorem C4_match_soundness_counterexample :
    pattern_match (.Fun "h" (.ofList [.Sym "f", .Fun "f" .nil]))
        (.Fun "h" (.ofList [.Sym "g", .Fun "f" .nil]))
      = some [("f", .Sym "g")]
    ∧ substitute_bindings [("f", .Sym "g")]
        (.Fun "h" (.ofList [.Sym "f", .Fun "f" .nil]))
      ≠ some (.Fun "h" (.ofList [.Sym "g", .Fun "f" .nil])) := by decide

/-- C4 amended: if `match(p, v)` succeeds with bindings `b` and no functor
name occurring in `p` is bound in `b`, then `instantiate(b, p)` is
structurally equal to `v`. -/
theorem C4_match_soundness_amended (p v : Expr) (b : Bindings)
    (h : pattern_match p v = some b) (hf : funs_unbound b p = true) :
    substitute_bindings b p = some v :=
  pattern_match_impl_sound p v [] b b h (fun _ _ hk => hk) hf

/-- witness for C4: `f(x)` matched against `f(c)` binds `x ↦ c` and
instantiating reproduces `f(c)`. -/
theorem C4_match_soundness_amended_witness :
    substitute_bindings [("x", .Sym "c")] (.Fun "f" (.ofList [.Sym "x"]))
      = some (.Fun "f" (.ofList [.Sym "c"])) :=
  C4_match_soundness_amended (.Fun "f" (.ofList [.Sym "x"]))
    (.Fun "f" (.ofList [.Sym "c"])) [("x", .Sym "c")] (by decide) (by decide)

/-- C5: an atom pattern with an unbound name always succeeds and binds the
name; with a bound name it succeeds exactly when the bound term equals the
value; `f(a, a)` against `f(x, y)` fails when `x ≠ y` and binds `a ↦ x` when
`x = y`; compound matching threads one shared bindings accumulator left to
right, and a failing argument fails the whole match with no bindings
exposed. -/
theorem C5_pattern_match_spec :
    (∀ (name : String) (value : Expr) (b : Bindings),
        Bindings.get b name = none →
        pattern_match_impl (.Sym name) value b = some (b.insert name value))
    ∧ (∀ (name : String) (value bound : Expr) (b : Bindings),
        Bindings.get b name = some bound →
        pattern_match_impl (.Sym name) value b
          = if bound = value then some b else none)
    ∧ (∀ x y : Expr,
        pattern_match (.Fun "f" (.ofList [.Sym "a", .Sym "a"]))
            (.Fun "f" (.ofList [x, y]))
          = if x = y then some [("a", x)] else none)
    ∧ (∀ (p v : Expr) (ps vs : ExprList) (b : Bindings),
        pattern_match_args (.cons p ps) (.cons v vs) b
          = match pattern_match_impl p v b with
            | some b1 => pattern_match_args ps vs b1
            | none => none)
    ∧ (∀ (p v : Expr) (ps vs : ExprList) (b : Bindings),
        pattern_match_impl p v b = none →
        pattern_match_args (.cons p ps) (.cons v vs) b = none) := by
  refine ⟨?_, ?_, ?_, fun p v ps vs b => rfl, ?_⟩
  · intro name value b h
    simp [pattern_match_impl, h]
  · intro name value bound b h
    simp [pattern_match_impl, h]
  · intro x y
    by_cases hxy : x = y <;>
      simp [pattern_match, pattern_match_impl, pattern_match_args,
        ExprList.length, ExprList.ofList, Bindings.get, Bindings.insert, hxy]
  · intro p v ps vs b h
    simp [pattern_match_args, h]

/-- witness for C5: binding an unbound atom, checking a bound atom, both
variable-consistency outcomes, and failure propagation, on concrete terms. -/
theorem C5_pattern_match_spec_witness :
    pattern_match_impl (.Sym "a") (.Sym "x") [] = some [("a", .Sym "x")]
    ∧ pattern_match_impl (.Sym "a") (.Sym "x") [("a", .Sym "x")] = some [("a", .Sym "x")]
    ∧ pattern_match (.Fun "f" (.ofList [.Sym "a", .Sym "a"]))
        (.Fun "f" (.ofList [.Sym "c", .Sym "c"])) = some [("a", .Sym "c")]
    ∧ pattern_match (.Fun "f" (.ofList [.Sym "a", .Sym "a"]))
        (.Fun "f" (.ofList [.Sym "c", .Sym "d"])) = none
    ∧ pattern_match_args (.cons (.Fun "f" .nil) .nil) (.cons (.Sym "v") .nil) [] = none :=
  ⟨C5_pattern_match_spec.1 "a" (.Sym "x") [] rfl,
   (C5_pattern_match_spec.2.1 "a" (.Sym "x") (.Sym "x") [("a", .Sym "x")] (by decide)).trans
     (by decide),
   (C5_pattern_match_spec.2.2.1 (.Sym "c") (.Sym "c")).trans (by decide),
   (C5_pattern_match_spec.2.2.1 (.Sym "c") (.Sym "d")).trans (by decide),
   C5_pattern_match_spec.2.2.2.2 (.Fun "f" .nil) (.Sym "v") .nil .nil [] (by decide)⟩

/-- C6: rewrite identity — if no subtree of `t` matches `rule.head`, then
`apply_all(rule, t)` is structurally equal to `t`. -/
theorem C6_rewrite_identity (r : Rule) (t : Expr)
    (h : ∀ s ∈ Expr.subterms t, pattern_match r.head s = none) :
    r.apply_all t = some t :=
  apply_all_of_no_subterm_match r t h

/-- witness for C6: the rule `swap(p) = p` leaves `foo(c, bar(d))`
unchanged. -/
theorem C6_rewrite_identity_witness :
    (⟨⟨0, 0⟩, .Fun "swap" (.ofList [.Sym "p"]), .Sym "p"⟩ : Rule).apply_all
        (.Fun "foo" (.ofList [.Sym "c", .Fun "bar" (.ofList [.Sym "d"])]))
      = some (.Fun "foo" (.ofList [.Sym "c", .Fun "bar" (.ofList [.Sym "d"])])) :=
  C6_rewrite_identity _ _ (by decide)

/-- C7: session transitions — from Idle, `apply` and `done` fail with
`NoShapingInPlace` and `shape(t)` succeeds into Shaping(t); from Shaping(t) a
second `shape` fails with `AlreadyShaping` leaving the state (and hence the
current term `t`) unchanged, and `done` succeeds, reports `t`, and returns to
Idle discarding `t`. -/
theorem C7_session_transitions :
    (∀ (ctx : Context) (txt : String) (loc : Loc) (rest : List Token),
        ctx.current_expr = none →
        process_command ctx (⟨.Apply, txt, loc⟩ :: rest)
          = .err .NoShapingInPlace ctx)
    ∧ (∀ (ctx : Context) (txt : String) (loc : Loc) (rest : List Token),
        ctx.current_expr = none →
        process_command ctx (⟨.Done, txt, loc⟩ :: rest)
          = .err .NoShapingInPlace ctx)
    ∧ (∀ (ctx : Context) (txt : String) (loc : Loc) (ts : List Token)
        (t : Expr) (rest : List Token),
        ctx.current_expr = none →
        parse_expr ts = .ok (t, rest) →
        process_command ctx (⟨.Shape, txt, loc⟩ :: ts)
          = .ok { ctx with current_expr := some t } rest [.Shaping t])
    ∧ (∀ (ctx : Context) (txt : String) (loc : Loc) (rest : List Token) (t : Expr),
        ctx.current_expr = some t →
        process_command ctx (⟨.Shape, txt, loc⟩ :: rest) = .err .AlreadyShaping ctx)
    ∧ (∀ (ctx : Context) (txt : String) (loc : Loc) (rest : List Token) (t : Expr),
        ctx.current_expr = some t →
        process_command ctx (⟨.Done, txt, loc⟩ :: rest)
          = .ok { ctx with current_expr := none } rest [.FinishedShaping t]) := by
  refine ⟨?_, ?_, ?_, ?_, ?_⟩
  · intro ctx txt loc rest h
    simp [process_command, expect_token_kind, TokenKindSet.contains,
      TokenKindSet.set, TokenKindSet.empty, h]
  · intro ctx txt loc rest h
    simp [process_command, expect_token_kind, TokenKindSet.contains,
      TokenKindSet.set, TokenKindSet.empty, h]
  · intro ctx txt loc ts t rest h hp
    simp [process_command, expect_token_kind, TokenKindSet.contains,
      TokenKindSet.set, TokenKindSet.empty, h, hp]
  · intro ctx txt loc rest t h
    simp [process_command, expect_token_kind, TokenKindSet.contains,
      TokenKindSet.set, TokenKindSet.empty, h]
  · intro ctx txt loc rest t h
    simp [process_command, expect_token_kind, TokenKindSet.contains,
      TokenKindSet.set, TokenKindSet.empty, h]

/-- witness for C7: all five transitions on concrete sessions. -/
theorem C7_session_transitions_witness :
    process_command ⟨[], none⟩ [⟨.Apply, "apply", ⟨0, 0⟩⟩]
      = .err .NoShapingInPlace ⟨[], none⟩
    ∧ process_command ⟨[], none⟩ [⟨.Done, "done", ⟨0, 0⟩⟩]
      = .err .NoShapingInPlace ⟨[], none⟩
    ∧ process_command ⟨[], none⟩
        [⟨.Shape, "shape", ⟨0, 0⟩⟩, ⟨.Sym, "t", ⟨0, 6⟩⟩, ⟨.End, "", ⟨0, 7⟩⟩]
      = .ok ⟨[], some (.Sym "t")⟩ [⟨.End, "", ⟨0, 7⟩⟩] [.Shaping (.Sym "t")]
    ∧ process_command ⟨[], some (.Sym "t")⟩ [⟨.Shape, "shape", ⟨0, 0⟩⟩]
      = .err .AlreadyShaping ⟨[], some (.Sym "t")⟩
    ∧ process_command ⟨[], some (.Sym "t")⟩ [⟨.Done, "done", ⟨0, 0⟩⟩]
      = .ok ⟨[], none⟩ [] [.FinishedShaping (.Sym "t")] :=
  ⟨C7_session_transitions.1 ⟨[], none⟩ "apply" ⟨0, 0⟩ [] rfl,
   C7_session_transitions.2.1 ⟨[], none⟩ "done" ⟨0, 0⟩ [] rfl,
   C7_session_transitions.2.2.1 ⟨[], none⟩ "shape" ⟨0, 0⟩
     [⟨.Sym, "t", ⟨0, 6⟩⟩, ⟨.End, "", ⟨0, 7⟩⟩] (.Sym "t") [⟨.End, "", ⟨0, 7⟩⟩]
     rfl (by decide),
   C7_session_transitions.2.2.2.1 ⟨[], some (.Sym "t")⟩ "shape" ⟨0, 0⟩ [] (.Sym "t") rfl,
   C7_session_transitions.2.2.2.2 ⟨[], some (.Sym "t")⟩ "done" ⟨0, 0⟩ [] (.Sym "t") rfl⟩

/-- C8: defining a rule under a name already in the table fails with
`RuleAlreadyExists` carrying the name, the new definition's location and the
existing definition's location, leaving the table (indeed the whole session)
unchanged; otherwise the new rule, located at the `rule` keyword, is inserted
under that name. -/
theorem C8_duplicate_rule :
    (∀ (ctx : Context) (kwTxt : String) (kwLoc : Loc) (nameTxt : String)
        (nameLoc : Loc) (rest : List Token) (r : Rule),
        Context.getRule ctx.rules nameTxt = some r →
        process_command ctx (⟨.Rule, kwTxt, kwLoc⟩ :: ⟨.Sym, nameTxt, nameLoc⟩ :: rest)
          = .err (.RuleAlreadyExists nameTxt nameLoc r.loc) ctx)
    ∧ (∀ (ctx : Context) (kwTxt : String) (kwLoc : Loc) (nameTxt : String)
        (nameLoc : Loc) (ts : List Token) (head : Expr) (eqTxt : String)
        (eqLoc : Loc) (ts1 : List Token) (body : Expr) (ts2 : List Token),
        Context.getRule ctx.rules nameTxt = none →
        parse_expr ts = .ok (head, ⟨.Equals, eqTxt, eqLoc⟩ :: ts1) →
        parse_expr ts1 = .ok (body, ts2) →
        process_command ctx (⟨.Rule, kwTxt, kwLoc⟩ :: ⟨.Sym, nameTxt, nameLoc⟩ :: ts)
          = .ok { ctx with rules := (nameTxt, ⟨kwLoc, head, body⟩) :: ctx.rules } ts2
              [.DefinedRule ⟨kwLoc, head, body⟩]) := by
  constructor
  · intro ctx kwTxt kwLoc nameTxt nameLoc rest r h
    simp [process_command, expect_token_kind, TokenKindSet.contains,
      TokenKindSet.set, TokenKindSet.empty, TokenKindSet.single, h]
  · intro ctx kwTxt kwLoc nameTxt nameLoc ts head eqTxt eqLoc ts1 body ts2 h hp1 hp2
    simp [process_command, expect_token_kind, TokenKindSet.contains,
      TokenKindSet.set, TokenKindSet.empty, TokenKindSet.single, h, hp1, hp2]

/-- witness for C8: redefining `r` fails with both locations and leaves the
table with the first definition; defining fresh `s` inserts it. -/
theorem C8_duplicate_rule_witness :
    process_command ⟨[("r", ⟨⟨1, 0⟩, .Sym "a", .Sym "b"⟩)], none⟩
        [⟨.Rule, "rule", ⟨2, 0⟩⟩, ⟨.Sym, "r", ⟨2, 5⟩⟩, ⟨.Sym, "a", ⟨2, 7⟩⟩,
         ⟨.Equals, "=", ⟨2, 9⟩⟩, ⟨.Sym, "b", ⟨2, 11⟩⟩, ⟨.End, "", ⟨2, 12⟩⟩]
      = .err (.RuleAlreadyExists "r" ⟨2, 5⟩ ⟨1, 0⟩)
          ⟨[("r", ⟨⟨1, 0⟩, .Sym "a", .Sym "b"⟩)], none⟩
    ∧ process_command ⟨[], none⟩
        [⟨.Rule, "rule", ⟨0, 0⟩⟩, ⟨.Sym, "s", ⟨0, 5⟩⟩, ⟨.Sym, "a", ⟨0, 7⟩⟩,
         ⟨.Equals, "=", ⟨0, 9⟩⟩, ⟨.Sym, "b", ⟨0, 11⟩⟩, ⟨.End, "", ⟨0, 12⟩⟩]
      = .ok ⟨[("s", ⟨⟨0, 0⟩, .Sym "a", .Sym "b"⟩)], none⟩ [⟨.End, "", ⟨0, 12⟩⟩]
          [.DefinedRule ⟨⟨0, 0⟩, .Sym "a", .Sym "b"⟩] :=
  ⟨C8_duplicate_rule.1 ⟨[("r", ⟨⟨1, 0⟩, .Sym "a", .Sym "b"⟩)], none⟩ "rule" ⟨2, 0⟩
     "r" ⟨2, 5⟩ _ ⟨⟨1, 0⟩, .Sym "a", .Sym "b"⟩ (by decide),
   C8_duplicate_rule.2 ⟨[], none⟩ "rule" ⟨0, 0⟩ "s" ⟨0, 5⟩
     [⟨.Sym, "a", ⟨0, 7⟩⟩, ⟨.Equals, "=", ⟨0, 9⟩⟩, ⟨.Sym, "b", ⟨0, 11⟩⟩, ⟨.End, "", ⟨0, 12⟩⟩]
     (.Sym "a") "=" ⟨0, 9⟩ [⟨.Sym, "b", ⟨0, 11⟩⟩, ⟨.End, "", ⟨0, 12⟩⟩]
     (.Sym "b") [⟨.End, "", ⟨0, 12⟩⟩] (by decide) (by decide) (by decide)⟩

/-- C9: `apply_all`, `pattern_match` and `substitute_bindings` are total
functions of this development — each is defined by structural recursion on
its term (respectively pattern/value pair, template) and hence yields a
result on every input; `substitute_bindings` may yield the modelled-panic
value `none`, but always terminates. -/
theorem C9_totality :
    (∀ (r : Rule) (e : Expr), ∃ res, r.apply_all e = res)
    ∧ (∀ p v : Expr, ∃ res, pattern_match p v = res)
    ∧ (∀ (b : Bindings) (e : Expr), ∃ res, substitute_bindings b e = res) :=
  ⟨fun r e => ⟨r.apply_all e, rfl⟩,
   fun p v => ⟨pattern_match p v, rfl⟩,
   fun b e => ⟨substitute_bindings b e, rfl⟩⟩

/-- C10: when `apply` is issued while the session is Idle, it fails with
`NoShapingInPlace` before the rule-name token is examined — whatever tokens
follow the `apply` keyword, the result is never `UnexpectedToken` and never
`RuleDoesNotExist`, and the state is unchanged. -/
theorem C10_apply_idle_before_name (ctx : Context) (txt : String) (loc : Loc)
    (rest : List Token) (h : ctx.current_expr = none) :
    process_command ctx (⟨.Apply, txt, loc⟩ :: rest) = .err .NoShapingInPlace ctx := by
  simp [process_command, expect_token_kind, TokenKindSet.contains,
    TokenKindSet.set, TokenKindSet.empty, h]

/-- witness for C10: with a malformed rule-name token (an open parenthesis)
and with a missing rule name, `apply` from Idle still reports
`NoShapingInPlace`. -/
theorem C10_apply_idle_before_name_witness :
    process_command ⟨[], none⟩ [⟨.Apply, "apply", ⟨0, 0⟩⟩, ⟨.OpenParen, "(", ⟨0, 6⟩⟩]
      = .err .NoShapingInPlace ⟨[], none⟩
    ∧ process_command ⟨[], none⟩ [⟨.Apply, "apply", ⟨0, 0⟩⟩, ⟨.Sym, "nosuch", ⟨0, 6⟩⟩]
      = .err .NoShapingInPlace ⟨[], none⟩ :=
  ⟨C10_apply_idle_before_name ⟨[], none⟩ "apply" ⟨0, 0⟩ [⟨.OpenParen, "(", ⟨0, 6⟩⟩] rfl,
   C10_apply_idle_before_name ⟨[], none⟩ "apply" ⟨0, 0⟩ [⟨.Sym, "nosuch", ⟨0, 6⟩⟩] rfl⟩
